import Mathlib

/-!
Shallow embedding of the time-series merge / rate-estimation / bucketing /
runtime-projection engine of the `symmetri` repository.

Numeric fields that the Rust code stores as `f64` are modelled as `ℚ`;
the algorithms use only field arithmetic and comparisons, which `ℚ`
models exactly.  Timestamps are epoch seconds (`ts : ℚ`).

* `Sample` embeds `src/db.rs` (`pub struct Sample`).
* `average_rates`, `is_discharging`, `is_charging`, `estimate_runtime_hours`,
  `bucket_span_seconds`, `bucket_start` embed `src/cli_helpers.rs`.
* `MetricSample`, `aggregate_battery_metrics` embed `src/aggregate.rs`
  (with `src/metrics.rs` supplying the battery metric kinds).
-/

namespace Symmetri

/-- Embeds `Sample` from `src/db.rs`. -/
structure Sample where
  ts : ℚ
  percentage : Option ℚ
  capacity_pct : Option ℚ
  health_pct : Option ℚ
  energy_now_wh : Option ℚ
  energy_full_wh : Option ℚ
  energy_full_design_wh : Option ℚ
  status : Option String
  source_path : String
deriving DecidableEq, Repr

/-- ASCII lower-casing of one character, as done byte-wise by Rust's
`eq_ignore_ascii_case`. -/
def asciiLowerChar (c : Char) : Char :=
  if 'A' ≤ c ∧ c ≤ 'Z' then Char.ofNat (c.toNat + 32) else c

/-- Embeds Rust `str::eq_ignore_ascii_case` (UTF-8 byte equality after
ASCII lower-casing coincides with character-list equality after
ASCII lower-casing each character). -/
def eqIgnoreAsciiCase (a b : String) : Bool :=
  a.data.map asciiLowerChar == b.data.map asciiLowerChar

/-- Embeds `is_discharging` from `src/cli_helpers.rs`: absent status
defaults to discharging. -/
def is_discharging (sample : Sample) : Bool :=
  match sample.status with
  | some s => eqIgnoreAsciiCase s "discharging"
  | none => true

/-- Embeds `is_charging` from `src/cli_helpers.rs`: absent status is
never charging. -/
def is_charging (sample : Sample) : Bool :=
  match sample.status with
  | some s => eqIgnoreAsciiCase s "charging"
  | none => false

/-- `MAX_GAP_HOURS` from `average_rates` (5 minutes). -/
def MAX_GAP_HOURS : ℚ := 5 / 60

/-- Embeds `RateAccumulator` from `src/cli_helpers.rs`. -/
structure RateAccumulator where
  delta : ℚ
  hours : ℚ
deriving DecidableEq, Repr

/-- `RateAccumulator::record`. -/
def RateAccumulator.record (acc : RateAccumulator) (delta_wh dt_hours : ℚ) :
    RateAccumulator :=
  ⟨acc.delta + delta_wh, acc.hours + dt_hours⟩

/-- `RateAccumulator::average`. -/
def RateAccumulator.average (acc : RateAccumulator) : Option ℚ :=
  if acc.hours = 0 ∨ acc.delta = 0 then none else some (acc.delta / acc.hours)

/-- Embeds `AverageRates` from `src/cli_helpers.rs`. -/
structure AverageRates where
  discharge_w : Option ℚ
  charge_w : Option ℚ
deriving DecidableEq, Repr

/-- The `for current in iter` loop of `average_rates`: walks the
energy-bearing subsequence pairwise, threading both accumulators.
In the source the current element's `energy_now_wh` is `unwrap`ped;
here `Option.getD 0` is used, applied only to elements that passed the
`is_some` filter. -/
def ratesLoop : Sample → List Sample → RateAccumulator → RateAccumulator →
    RateAccumulator × RateAccumulator
  | _, [], discharge, charge => (discharge, charge)
  | previous, current :: rest, discharge, charge =>
    if current.ts < previous.ts then
      ratesLoop current rest discharge charge
    else
      let dt_hours := (current.ts - previous.ts) / 3600
      if 0 < dt_hours ∧ dt_hours ≤ MAX_GAP_HOURS then
        let delta := current.energy_now_wh.getD 0 - previous.energy_now_wh.getD 0
        if 0 < delta ∧ is_charging previous ∧ is_charging current then
          ratesLoop current rest discharge (charge.record delta dt_hours)
        else if delta < 0 ∧ is_discharging previous ∧ is_discharging current then
          ratesLoop current rest (discharge.record (-delta) dt_hours) charge
        else
          ratesLoop current rest discharge charge
      else
        ratesLoop current rest discharge charge

/-- Embeds `average_rates` from `src/cli_helpers.rs`: restricts to samples
with `energy_now_wh` present, takes the first as `previous`, then walks
the rest with `ratesLoop`. -/
def average_rates (samples : List Sample) : AverageRates :=
  match samples.filter (fun s => s.energy_now_wh.isSome) with
  | [] => ⟨none, none⟩
  | first :: rest =>
    let accs := ratesLoop first rest ⟨0, 0⟩ ⟨0, 0⟩
    ⟨accs.1.average, accs.2.average⟩

/-- `average_discharge_w` from `src/cli_helpers.rs`. -/
def average_discharge_w (samples : List Sample) : Option ℚ :=
  (average_rates samples).discharge_w

/-- `average_charge_w` from `src/cli_helpers.rs`. -/
def average_charge_w (samples : List Sample) : Option ℚ :=
  (average_rates samples).charge_w

/-- Embeds `estimate_runtime_hours` from `src/cli_helpers.rs`. -/
def estimate_runtime_hours (avg_discharge_w : Option ℚ) (current_sample : Sample) :
    Option ℚ :=
  match avg_discharge_w with
  | none => none
  | some avg =>
    if avg ≤ 0 then none
    else
      match current_sample.energy_full_wh.or current_sample.energy_full_design_wh with
      | none => none
      | some capacity_wh =>
        if capacity_wh ≤ 0 then none else some (capacity_wh / avg)

/-- Embeds `Timeframe` from `src/timeframe.rs` (`seconds = none` means
all-time / unbounded). -/
structure Timeframe where
  label : String
  seconds : Option ℚ
  hours : Nat
  days : Nat
  months : Nat
deriving DecidableEq, Repr

/-- Embeds `bucket_span_seconds` from `src/cli_helpers.rs`. -/
def bucket_span_seconds (timeframe : Timeframe) : ℤ :=
  match timeframe.seconds with
  | none => 7 * 24 * 3600
  | some window =>
    if window ≤ 6 * 3600 then 20 * 60
    else if window ≤ 24 * 3600 then 3600
    else if window ≤ 3 * 24 * 3600 then 2 * 3600
    else if window ≤ 7 * 24 * 3600 then 6 * 3600
    else if window ≤ 30 * 24 * 3600 then 24 * 3600
    else if window ≤ 90 * 24 * 3600 then 3 * 24 * 3600
    else 7 * 24 * 3600

/-- The pre-clamp value computed by `bucket_start` in `src/cli_helpers.rs`:
the timestamp is shifted by the local UTC offset (python-style seconds east
of UTC, `offset_seconds = -utc_minus_local`), floor-divided onto a multiple
of the bucket width, and shifted back. -/
def bucket_aligned (ts : ℚ) (bucket_seconds offset_seconds : ℤ) : ℤ :=
  ⌊(ts + (offset_seconds : ℚ)) / (bucket_seconds : ℚ)⌋ * bucket_seconds -
    offset_seconds

/-- Embeds `bucket_start` from `src/cli_helpers.rs`: the locally aligned
value, clamped to be non-negative (`bucket_epoch.max(0.0)`); the result is
integral, matching the `as i64` conversion in the source. -/
def bucket_start (ts : ℚ) (bucket_seconds offset_seconds : ℤ) : ℤ :=
  max (bucket_aligned ts bucket_seconds offset_seconds) 0

/-- Embeds `MetricKind` from `src/metrics.rs`, together with the battery
metric kinds consumed by `src/aggregate.rs` and produced by
`src/sysfs.rs`. -/
inductive MetricKind where
  | CpuUsage
  | CpuFrequency
  | GpuUsage
  | GpuFrequency
  | NetworkBytes
  | MemoryUsage
  | DiskUsage
  | Temperature
  | PowerDraw
  | BatteryPercentage
  | BatteryCapacity
  | BatteryHealth
  | BatteryEnergyNow
  | BatteryEnergyFull
  | BatteryEnergyFullDesign
deriving DecidableEq, Repr

/-- Embeds `MetricSample` from `src/metrics.rs`.  The `details` JSON value
is consumed by `aggregate_battery_metrics` only through
`details.get("status").and_then(|v| v.as_str())` and produced only as
`json!({ "status": status })`, so it is modelled by that optional status
string. -/
structure MetricSample where
  ts : ℚ
  kind : MetricKind
  source : String
  value : Option ℚ
  unit : Option String
  status : Option String
deriving DecidableEq, Repr

/-- Embeds `sum_or_none` from `src/aggregate.rs`. -/
def sum_or_none (values : List (Option ℚ)) : Option ℚ :=
  let present := values.reduceOption
  if present.isEmpty then none else some (present.foldl (· + ·) 0)

/-- Embeds `avg_or_none` from `src/aggregate.rs`. -/
def avg_or_none (values : List (Option ℚ)) : Option ℚ :=
  let present := values.reduceOption
  if present.isEmpty then none
  else some (present.foldl (· + ·) 0 / (present.length : ℚ))

/-- Embeds `percent` from `src/aggregate.rs`. -/
def percent (numerator denominator : Option ℚ) : Option ℚ :=
  match numerator, denominator with
  | some num, some den => if den ≠ 0 then some (num / den * 100) else none
  | _, _ => none

/-- Models the `let mut x = primary; if x.is_none() { x = secondary }`
pattern used for `computed_percentage` and `computed_health`. -/
def fallback (primary secondary : Option ℚ) : Option ℚ :=
  match primary with
  | some v => some v
  | none => secondary

/-- Ordered insertion for the ascending `sources.sort()`. -/
def insertStr (x : String) : List String → List String
  | [] => [x]
  | y :: ys => if x < y then x :: y :: ys else y :: insertStr x ys

/-- Ascending sort of the source labels (`sources.sort()`). -/
def sortStrings (l : List String) : List String :=
  l.foldr insertStr []

/-- Consecutive de-duplication (`Vec::dedup`). -/
def dedupAdj : List String → List String
  | [] => []
  | [x] => [x]
  | x :: y :: rest =>
    if x = y then dedupAdj (y :: rest) else x :: dedupAdj (y :: rest)

/-- The `combined_source` computation of `aggregate_battery_metrics`:
sort, de-duplicate, join with `+`. -/
def combinedSource (group : List MetricSample) : String :=
  String.intercalate "+" (dedupAdj (sortStrings (group.map (fun m => m.source))))

/-- The distinct set of present status strings of a group.  The source
collects them in a `BTreeSet`; only its cardinality and, when it is a
singleton, its sole element are consumed, which `List.dedup` models
exactly. -/
def distinctStatuses (group : List MetricSample) : List String :=
  (group.filterMap (fun m => m.status)).dedup

/-- The merged `status` of `aggregate_battery_metrics`: empty set ↦
`none`, singleton ↦ that value, otherwise the sentinel `"mixed"`. -/
def mergedStatus (group : List MetricSample) : Option String :=
  match distinctStatuses group with
  | [] => none
  | [s] => some s
  | _ => some "mixed"

/-- The values of a group's metrics of one kind, in order (the
`group.iter().filter(|m| m.kind == ...)` then `.map(|m| m.value)`
pattern). -/
def kindValues (group : List MetricSample) (kind : MetricKind) : List (Option ℚ) :=
  (group.filter (fun m => decide (m.kind = kind))).map (fun m => m.value)

/-- All per-group quantities computed by the body of the
`for (ts_key, group)` loop of `aggregate_battery_metrics`, before any
output is pushed. -/
structure GroupCalc where
  sumNow : Option ℚ
  sumFull : Option ℚ
  sumDesign : Option ℚ
  pct : Option ℚ
  cap : Option ℚ
  health : Option ℚ
  status : Option String
  src : String
deriving DecidableEq, Repr

/-- The per-group computations of `aggregate_battery_metrics` (the
source's local bindings `sum_energy_now`, `sum_energy_full` and
`sum_energy_full_design` are inlined into their use sites). -/
def groupCalc (group : List MetricSample) : GroupCalc :=
  { sumNow := sum_or_none (kindValues group .BatteryEnergyNow)
    sumFull := sum_or_none (kindValues group .BatteryEnergyFull)
    sumDesign := sum_or_none (kindValues group .BatteryEnergyFullDesign)
    pct := fallback
      (percent (sum_or_none (kindValues group .BatteryEnergyNow))
        (sum_or_none (kindValues group .BatteryEnergyFull)))
      (avg_or_none (kindValues group .BatteryPercentage))
    cap := avg_or_none (kindValues group .BatteryCapacity)
    health := fallback
      (percent (sum_or_none (kindValues group .BatteryEnergyFull))
        (sum_or_none (kindValues group .BatteryEnergyFullDesign)))
      (avg_or_none (kindValues group .BatteryHealth))
    status := mergedStatus group
    src := combinedSource group }

/-- One aggregated output sample (`MetricSample::new` with a present
value and unit, `details = json!({"status": status})`). -/
def mkOut (ts : ℚ) (kind : MetricKind) (src unit : String) (status : Option String)
    (v : ℚ) : MetricSample :=
  { ts := ts, kind := kind, source := src, value := some v,
    unit := some unit, status := status }

/-- The conditional `aggregated.push(...)` sequence of
`aggregate_battery_metrics`, in source order: percentage, capacity,
health, energy_now, energy_full, energy_full_design. -/
def emitGroup (ts : ℚ) (c : GroupCalc) : List MetricSample :=
  (c.pct.map (mkOut ts .BatteryPercentage c.src "%" c.status)).toList ++
  (c.cap.map (mkOut ts .BatteryCapacity c.src "%" c.status)).toList ++
  (c.health.map (mkOut ts .BatteryHealth c.src "%" c.status)).toList ++
  (c.sumNow.map (mkOut ts .BatteryEnergyNow c.src "Wh" c.status)).toList ++
  (c.sumFull.map (mkOut ts .BatteryEnergyFull c.src "Wh" c.status)).toList ++
  (c.sumDesign.map (mkOut ts .BatteryEnergyFullDesign c.src "Wh" c.status)).toList

/-- The whole loop body of `aggregate_battery_metrics` for one timestamp
group. -/
def aggregateGroup (ts : ℚ) (group : List MetricSample) : List MetricSample :=
  emitGroup ts (groupCalc group)

/-- The ascending, duplicate-free key list of the `BTreeMap` grouping of
`aggregate_battery_metrics`. -/
def tsKeys (metrics : List MetricSample) : List ℚ :=
  List.insertionSort (· ≤ ·) ((metrics.map (fun m => m.ts)).dedup)

/-- Embeds `aggregate_battery_metrics` from `src/aggregate.rs`: group by
exact timestamp (ascending keys, insertion order inside a group), then
emit the merged samples per group. -/
def aggregate_battery_metrics (metrics : List MetricSample) : List MetricSample :=
  ((tsKeys metrics).map
    (fun k => aggregateGroup k (metrics.filter (fun m => decide (m.ts = k))))).flatten

/-- The merged value of one battery field of a merged sequence: the value
of the first sample of that kind, when any. -/
def kindValue (metrics : List MetricSample) (kind : MetricKind) : Option ℚ :=
  (metrics.find? (fun m => decide (m.kind = kind))).bind (fun m => m.value)

/-- At most one sample per (timestamp, kind) pair. -/
def uniquePerTsKind : List MetricSample → Bool
  | [] => true
  | m :: rest =>
    rest.all (fun n => !(decide (n.ts = m.ts) && decide (n.kind = m.kind))) &&
      uniquePerTsKind rest

/-- A default-status battery sample, as built by the test helper `sample`
in `src/cli_helpers.rs` (energy_full 60 Wh, energy_full_design 70 Wh). -/
def sampleAt (ts e : ℚ) : Sample :=
  { ts := ts, percentage := none, capacity_pct := none, health_pct := none,
    energy_now_wh := some e, energy_full_wh := some 60,
    energy_full_design_wh := some 70, status := none, source_path := "BAT0" }

/-- The spec's gap example: 60 Wh at ts=0, 59.5 Wh at ts=300,
59.4 Wh at ts=1800. -/
def gapSamples : List Sample :=
  [sampleAt 0 60, sampleAt 300 (119 / 2), sampleAt 1800 (297 / 5)]

/-- A battery metric sample, as built by the test helper `battery_metric`
in `src/aggregate.rs`. -/
def batteryMetric (ts : ℚ) (kind : MetricKind) (source : String) (v : ℚ)
    (status : String) : MetricSample :=
  { ts := ts, kind := kind, source := source, value := some v,
    unit := some "Wh", status := some status }

/-- The spec's merge example: BAT0 with (10, 20, 25) Wh and BAT1 with
(5, 10, 15) Wh, both at ts=1. -/
def twoBatteryMetrics : List MetricSample :=
  [batteryMetric 1 .BatteryEnergyNow "BAT0" 10 "Discharging",
   batteryMetric 1 .BatteryEnergyFull "BAT0" 20 "Discharging",
   batteryMetric 1 .BatteryEnergyFullDesign "BAT0" 25 "Discharging",
   batteryMetric 1 .BatteryEnergyNow "BAT1" 5 "Charging",
   batteryMetric 1 .BatteryEnergyFull "BAT1" 10 "Charging",
   batteryMetric 1 .BatteryEnergyFullDesign "BAT1" 15 "Charging"]

/-- A one-sample group whose stored status is literally the sentinel
string "mixed". -/
def literalMixedMetric : List MetricSample :=
  [batteryMetric 1 .BatteryEnergyNow "BAT0" 5 "mixed"]

/-- A per-(timestamp, kind)-unique group whose raw percentage (30) is
inconsistent with its energy fields (10 Wh of 40 Wh). -/
def inconsistentPctMetrics : List MetricSample :=
  [batteryMetric 1 .BatteryPercentage "BAT0" 30 "Discharging",
   batteryMetric 1 .BatteryEnergyNow "BAT0" 10 "Discharging",
   batteryMetric 1 .BatteryEnergyFull "BAT0" 40 "Discharging"]

/-- The 6-hour timeframe built by `build_timeframe(6, 0, 0, false)`. -/
def timeframeSixHours : Timeframe :=
  { label := "last_6_hours", seconds := some 21600, hours := 6, days := 0, months := 0 }

/-- The unbounded timeframe built by `build_timeframe(_, _, _, true)`. -/
def timeframeAll : Timeframe :=
  { label := "all", seconds := none, hours := 0, days := 0, months := 0 }

/-- C7: `bucket_span_seconds` maps the timeframe duration to a bucket
width by thresholds: ≤ 6 h → 1200 s, ≤ 24 h → 3600 s, ≤ 3 d → 7200 s,
≤ 7 d → 21600 s, ≤ 30 d → 86400 s, ≤ 90 d → 259200 s, and unbounded or
larger → 604800 s; in particular 1200 for a 6-hour timeframe and 604800
for an unbounded timeframe. -/
theorem C7_bucket_width_thresholds :
    (∀ tf : Timeframe, tf.seconds = none → bucket_span_seconds tf = 604800) ∧
    (∀ (tf : Timeframe) (w : ℚ), tf.seconds = some w →
      (w ≤ 6 * 3600 → bucket_span_seconds tf = 1200) ∧
      (6 * 3600 < w → w ≤ 24 * 3600 → bucket_span_seconds tf = 3600) ∧
      (24 * 3600 < w → w ≤ 3 * 24 * 3600 → bucket_span_seconds tf = 7200) ∧
      (3 * 24 * 3600 < w → w ≤ 7 * 24 * 3600 → bucket_span_seconds tf = 21600) ∧
      (7 * 24 * 3600 < w → w ≤ 30 * 24 * 3600 → bucket_span_seconds tf = 86400) ∧
      (30 * 24 * 3600 < w → w ≤ 90 * 24 * 3600 → bucket_span_seconds tf = 259200) ∧
      (90 * 24 * 3600 < w → bucket_span_seconds tf = 604800)) ∧
    bucket_span_seconds timeframeSixHours = 1200 ∧
    bucket_span_seconds timeframeAll = 604800 := by
  refine ⟨fun tf h => by simp [bucket_span_seconds, h], fun tf w h => ?_, ?_, ?_⟩
  · simp only [bucket_span_seconds, h]
    refine ⟨fun h1 => ?_, fun h1 h2 => ?_, fun h1 h2 => ?_, fun h1 h2 => ?_,
      fun h1 h2 => ?_, fun h1 h2 => ?_, fun h1 => ?_⟩ <;>
      split_ifs <;> linarith
  · norm_num [bucket_span_seconds, timeframeSixHours]
  · norm_num [bucket_span_seconds, timeframeAll]

theorem C7_bucket_width_thresholds_witness :
    bucket_span_seconds timeframeAll = 604800 ∧
    bucket_span_seconds timeframeSixHours = 1200 ∧
    bucket_span_seconds
      { label := "last_1_day", seconds := some 86400, hours := 0, days := 1,
        months := 0 } = 3600 :=
  ⟨C7_bucket_width_thresholds.1 timeframeAll rfl,
   (C7_bucket_width_thresholds.2.1 timeframeSixHours 21600 rfl).1 (by norm_num),
   (C7_bucket_width_thresholds.2.1 _ 86400 rfl).2.1 (by norm_num) (by norm_num)⟩

theorem ratesLoop_nonneg (rest : List Sample) :
    ∀ (previous : Sample) (d c : RateAccumulator),
      0 ≤ d.delta → 0 ≤ d.hours → 0 ≤ c.delta → 0 ≤ c.hours →
      (0 ≤ (ratesLoop previous rest d c).1.delta ∧
        0 ≤ (ratesLoop previous rest d c).1.hours) ∧
      (0 ≤ (ratesLoop previous rest d c).2.delta ∧
        0 ≤ (ratesLoop previous rest d c).2.hours) := by
  induction rest with
  | nil =>
    intro previous d c hd1 hd2 hc1 hc2
    exact ⟨⟨hd1, hd2⟩, hc1, hc2⟩
  | cons current rest ih =>
    intro previous d c hd1 hd2 hc1 hc2
    simp only [ratesLoop]
    split_ifs with h1 h2 h3 h4
    · exact ih current d c hd1 hd2 hc1 hc2
    · refine ih current d (c.record _ _) hd1 hd2 ?_ ?_ <;>
        simp only [RateAccumulator.record]
      · exact add_nonneg hc1 (le_of_lt h3.1)
      · exact add_nonneg hc2 (le_of_lt h2.1)
    · refine ih current (d.record _ _) c ?_ ?_ hc1 hc2 <;>
        simp only [RateAccumulator.record]
      · exact add_nonneg hd1 (le_of_lt (neg_pos.mpr h4.1))
      · exact add_nonneg hd2 (le_of_lt h2.1)
    · exact ih current d c hd1 hd2 hc1 hc2
    · exact ih current d c hd1 hd2 hc1 hc2

theorem average_pos (acc : RateAccumulator) (h1 : 0 ≤ acc.delta) (h2 : 0 ≤ acc.hours) :
    ∀ x : ℚ, acc.average = some x → 0 < x := by
  intro x hx
  unfold RateAccumulator.average at hx
  by_cases h : acc.hours = 0 ∨ acc.delta = 0
  · rw [if_pos h] at hx; cases hx
  · rw [if_neg h] at hx
    rw [Option.some_inj] at hx
    subst hx
    rcases not_or.mp h with ⟨hh, hd⟩
    exact div_pos (lt_of_le_of_ne h1 (Ne.symm hd)) (lt_of_le_of_ne h2 (Ne.symm hh))

/-- C10: whenever `average_rates` returns a present discharge or charge
rate, that rate is strictly positive (each accumulator starts at zero,
every recorded contribution has positive magnitude and duration, and a
zero sum yields `none`). -/
theorem C10_present_rates_positive :
    ∀ (samples : List Sample) (x : ℚ),
      ((average_rates samples).discharge_w = some x → 0 < x) ∧
      ((average_rates samples).charge_w = some x → 0 < x) := by
  intro samples x
  simp only [average_rates]
  cases hf : samples.filter (fun s => s.energy_now_wh.isSome) with
  | nil => constructor <;> intro h <;> cases h
  | cons first rest =>
    have h := ratesLoop_nonneg rest first ⟨0, 0⟩ ⟨0, 0⟩ le_rfl le_rfl le_rfl le_rfl
    exact ⟨fun hx => average_pos _ h.1.1 h.1.2 x hx,
      fun hx => average_pos _ h.2.1 h.2.2 x hx⟩

theorem C10_present_rates_positive_witness :
    (average_rates gapSamples).discharge_w = some 6 ∧ (0 : ℚ) < 6 :=
  have h : (average_rates gapSamples).discharge_w = some 6 := by
    norm_num [average_rates, ratesLoop, RateAccumulator.average, RateAccumulator.record,
      MAX_GAP_HOURS, is_charging, is_discharging, gapSamples, sampleAt, List.filter]
  ⟨h, (C10_present_rates_positive gapSamples 6).1 h⟩

/-- C6 fails as stated for a negative timestamp: there the clamp raises
the result above the input, so `bucket_start` is not ≤ its input. -/
theorem C6_counterexample_negative_ts :
    ¬ (((bucket_start (-10) 20 0 : ℤ) : ℚ) ≤ -10) := by
  norm_num [bucket_start, bucket_aligned]

/-- C6 (amended with a non-negative timestamp): for every timestamp
≥ 0 and positive width, `bucket_start` is ≤ the input, within one width
of it, non-negative, and is the clamp to 0 of the `bucket_aligned` value,
which is a multiple of the width after shifting by the local UTC
offset. -/
theorem C6_bucket_start_alignment (ts : ℚ) (w off : ℤ) (hts : 0 ≤ ts) (hw : 0 < w) :
    ((bucket_start ts w off : ℤ) : ℚ) ≤ ts ∧
    ts - ((bucket_start ts w off : ℤ) : ℚ) < (w : ℚ) ∧
    0 ≤ bucket_start ts w off ∧
    (w ∣ bucket_aligned ts w off + off) ∧
    bucket_start ts w off = max (bucket_aligned ts w off) 0 := by
  have hwq : (0 : ℚ) < (w : ℚ) := by exact_mod_cast hw
  have h1 : ((⌊(ts + (off : ℚ)) / (w : ℚ)⌋ : ℤ) : ℚ) ≤ (ts + (off : ℚ)) / (w : ℚ) :=
    Int.floor_le _
  have h2 : (ts + (off : ℚ)) / (w : ℚ) < (⌊(ts + (off : ℚ)) / (w : ℚ)⌋ : ℚ) + 1 :=
    Int.lt_floor_add_one _
  have h1' : ((⌊(ts + (off : ℚ)) / (w : ℚ)⌋ : ℤ) : ℚ) * (w : ℚ) ≤ ts + (off : ℚ) :=
    (le_div_iff₀ hwq).mp h1
  have h2' : ts + (off : ℚ) < (((⌊(ts + (off : ℚ)) / (w : ℚ)⌋ : ℤ) : ℚ) + 1) * (w : ℚ) :=
    (div_lt_iff₀ hwq).mp h2
  have ha_le : ((bucket_aligned ts w off : ℤ) : ℚ) ≤ ts := by
    unfold bucket_aligned
    push_cast
    linarith
  have ha_gt : ts - ((bucket_aligned ts w off : ℤ) : ℚ) < (w : ℚ) := by
    unfold bucket_aligned
    push_cast
    nlinarith
  have hmax : ((bucket_start ts w off : ℤ) : ℚ) =
      max ((bucket_aligned ts w off : ℤ) : ℚ) 0 := by
    unfold bucket_start
    push_cast
    rfl
  refine ⟨?_, ?_, le_max_right _ _, ?_, rfl⟩
  · rw [hmax]
    exact max_le ha_le hts
  · have hge : ((bucket_aligned ts w off : ℤ) : ℚ) ≤ ((bucket_start ts w off : ℤ) : ℚ) := by
      rw [hmax]; exact le_max_left _ _
    linarith
  · have hrw : bucket_aligned ts w off + off =
        ⌊(ts + (off : ℚ)) / (w : ℚ)⌋ * w := by
      unfold bucket_aligned; ring
    rw [hrw]
    exact dvd_mul_left w _

theorem C6_bucket_start_alignment_witness :
    ((bucket_start 1000 604800 3600 : ℤ) : ℚ) ≤ 1000 ∧
    (1000 : ℚ) - ((bucket_start 1000 604800 3600 : ℤ) : ℚ) < (604800 : ℚ) ∧
    0 ≤ bucket_start 1000 604800 3600 ∧
    ((604800 : ℤ) ∣ bucket_aligned 1000 604800 3600 + 3600) ∧
    bucket_start 1000 604800 3600 = max (bucket_aligned 1000 604800 3600) 0 := by
  have h := C6_bucket_start_alignment 1000 604800 3600 (by norm_num) (by norm_num)
  exact_mod_cast h

/-- C8: `estimate_runtime_hours` returns `none` exactly when the discharge
rate is absent or ≤ 0, or when the capacity figure — `energy_full_wh` if
present, otherwise `energy_full_design_wh` — is absent or ≤ 0; otherwise
it returns capacity / rate. -/
theorem C8_runtime_none_iff :
    ∀ (avg : Option ℚ) (s : Sample),
      (∀ x, s.energy_full_wh = some x →
        s.energy_full_wh.or s.energy_full_design_wh = some x) ∧
      (s.energy_full_wh = none →
        s.energy_full_wh.or s.energy_full_design_wh = s.energy_full_design_wh) ∧
      (estimate_runtime_hours avg s = none ↔
        (avg = none ∨ ∃ a, avg = some a ∧ a ≤ 0) ∨
        (s.energy_full_wh.or s.energy_full_design_wh = none ∨
          ∃ c, s.energy_full_wh.or s.energy_full_design_wh = some c ∧ c ≤ 0)) ∧
      (∀ a c, avg = some a → 0 < a →
        s.energy_full_wh.or s.energy_full_design_wh = some c → 0 < c →
        estimate_runtime_hours avg s = some (c / a)) := by
  intro avg s
  refine ⟨fun x hx => by simp [Option.or, hx], fun hx => by simp [Option.or, hx], ?_, ?_⟩
  · rcases avg with _ | a
    · simp [estimate_runtime_hours]
    · rcases hc : s.energy_full_wh.or s.energy_full_design_wh with _ | c
      · simp only [estimate_runtime_hours, hc]
        split_ifs with ha
        · exact ⟨fun _ => Or.inl (Or.inr ⟨a, rfl, ha⟩), fun _ => rfl⟩
        · exact ⟨fun _ => Or.inr (Or.inl (by trivial)), fun _ => by trivial⟩
      · simp only [estimate_runtime_hours, hc]
        split_ifs with ha hcc
        · exact ⟨fun _ => Or.inl (Or.inr ⟨a, rfl, ha⟩), fun _ => rfl⟩
        · exact ⟨fun _ => Or.inr (Or.inr ⟨c, rfl, hcc⟩), fun _ => rfl⟩
        · constructor
          · intro h; exact absurd h (by simp)
          · rintro ((h | ⟨a', ha', hle⟩) | (h | ⟨c', hc', hle⟩))
            · exact absurd h (by simp)
            · rw [Option.some_inj] at ha'; exact absurd (ha' ▸ hle) ha
            · exact absurd h (by simp)
            · rw [Option.some_inj] at hc'; exact absurd (hc' ▸ hle) hcc
  · intro a c ha hapos hc hcpos
    subst ha
    simp only [estimate_runtime_hours, hc]
    rw [if_neg (by linarith), if_neg (by linarith)]

theorem mem_optToList {m : MetricSample} {o : Option ℚ} {f : ℚ → MetricSample}
    (h : m ∈ (o.map f).toList) : ∃ v, m = f v := by
  cases o with
  | none => cases h
  | some v => exact ⟨v, by simpa using h⟩

theorem mem_emitGroup {m : MetricSample} {k : ℚ} {c : GroupCalc}
    (h : m ∈ emitGroup k c) : m.ts = k ∧ m.source = c.src ∧ m.status = c.status := by
  unfold emitGroup at h
  rcases List.mem_append.mp h with h | h
  · rcases List.mem_append.mp h with h | h
    · rcases List.mem_append.mp h with h | h
      · rcases List.mem_append.mp h with h | h
        · rcases List.mem_append.mp h with h | h
          · obtain ⟨v, rfl⟩ := mem_optToList h; exact ⟨rfl, rfl, rfl⟩
          · obtain ⟨v, rfl⟩ := mem_optToList h; exact ⟨rfl, rfl, rfl⟩
        · obtain ⟨v, rfl⟩ := mem_optToList h; exact ⟨rfl, rfl, rfl⟩
      · obtain ⟨v, rfl⟩ := mem_optToList h; exact ⟨rfl, rfl, rfl⟩
    · obtain ⟨v, rfl⟩ := mem_optToList h; exact ⟨rfl, rfl, rfl⟩
  · obtain ⟨v, rfl⟩ := mem_optToList h; exact ⟨rfl, rfl, rfl⟩

theorem find?_mkOut_toList (o : Option ℚ) (t : ℚ) (src unit : String)
    (st : Option String) (k target : MetricKind) :
    ((o.map (mkOut t k src unit st)).toList).find? (fun m => decide (m.kind = target)) =
      if k = target then o.map (mkOut t k src unit st) else none := by
  cases o with
  | none => simp
  | some v =>
    by_cases h : k = target
    · simp [List.find?, mkOut, h]
    · simp [List.find?, mkOut, h]

theorem kindValue_emitGroup (t : ℚ) (c : GroupCalc) :
    kindValue (emitGroup t c) .BatteryPercentage = c.pct ∧
    kindValue (emitGroup t c) .BatteryCapacity = c.cap ∧
    kindValue (emitGroup t c) .BatteryHealth = c.health ∧
    kindValue (emitGroup t c) .BatteryEnergyNow = c.sumNow ∧
    kindValue (emitGroup t c) .BatteryEnergyFull = c.sumFull ∧
    kindValue (emitGroup t c) .BatteryEnergyFullDesign = c.sumDesign := by
  refine ⟨?_, ?_, ?_, ?_, ?_, ?_⟩ <;>
    simp only [kindValue, emitGroup, List.find?_append, find?_mkOut_toList]
  · cases c.pct <;> simp [mkOut]
  · cases c.cap <;> simp [mkOut]
  · cases c.health <;> simp [mkOut]
  · cases c.sumNow <;> simp [mkOut]
  · cases c.sumFull <;> simp [mkOut]
  · cases c.sumDesign <;> simp [mkOut]

theorem dedup_all_eq {α : Type} [DecidableEq α] (t : α) :
    ∀ (l : List α), l ≠ [] → (∀ x ∈ l, x = t) → l.dedup = [t]
  | [], h, _ => absurd rfl h
  | [x], _, hall => by
    have hx : x = t := hall x (by simp)
    subst hx
    simp
  | x :: y :: ys, _, hall => by
    have hx : x = t := hall x (by simp)
    have hy : y = t := hall y (by simp)
    have hmem : x ∈ y :: ys := by rw [hx, hy]; simp
    rw [List.dedup_cons_of_mem hmem]
    exact dedup_all_eq t (y :: ys) (by simp) (fun z hz => hall z (by simp [hz]))

theorem aggregate_single_group (t : ℚ) (group : List MetricSample)
    (hne : group ≠ []) (hts : ∀ m ∈ group, m.ts = t) :
    aggregate_battery_metrics group = aggregateGroup t group := by
  have hkeys : tsKeys group = [t] := by
    unfold tsKeys
    rw [dedup_all_eq t (group.map (fun m => m.ts))
      (fun h => hne (List.map_eq_nil_iff.mp h))
      (List.forall_mem_map.mpr hts)]
    rfl
  have hfilter : group.filter (fun m => decide (m.ts = t)) = group :=
    List.filter_eq_self.mpr (fun m hm => by simp [hts m hm])
  unfold aggregate_battery_metrics
  rw [hkeys]
  simp only [List.map_cons, List.map_nil, List.flatten_cons, List.flatten_nil,
    List.append_nil]
  rw [hfilter]

/-- C3: for every non-empty group of same-timestamp metric samples, each
merged watt-hour field equals the sum of the values present in the
group and is absent when none was present; on the spec's two-battery
example the merged fields are 15, 30 and 40 Wh with percentage 50 and
health 75. -/
theorem C3_merged_energy_sums :
    (∀ (t : ℚ) (group : List MetricSample), group ≠ [] → (∀ m ∈ group, m.ts = t) →
      kindValue (aggregate_battery_metrics group) .BatteryEnergyNow =
        sum_or_none (kindValues group .BatteryEnergyNow) ∧
      kindValue (aggregate_battery_metrics group) .BatteryEnergyFull =
        sum_or_none (kindValues group .BatteryEnergyFull) ∧
      kindValue (aggregate_battery_metrics group) .BatteryEnergyFullDesign =
        sum_or_none (kindValues group .BatteryEnergyFullDesign)) ∧
    kindValue (aggregate_battery_metrics twoBatteryMetrics) .BatteryEnergyNow = some 15 ∧
    kindValue (aggregate_battery_metrics twoBatteryMetrics) .BatteryEnergyFull = some 30 ∧
    kindValue (aggregate_battery_metrics twoBatteryMetrics) .BatteryEnergyFullDesign =
      some 40 ∧
    kindValue (aggregate_battery_metrics twoBatteryMetrics) .BatteryPercentage = some 50 ∧
    kindValue (aggregate_battery_metrics twoBatteryMetrics) .BatteryHealth = some 75 := by
  constructor
  · intro t group hne hts
    rw [aggregate_single_group t group hne hts]
    unfold aggregateGroup
    refine ⟨?_, ?_, ?_⟩
    · rw [(kindValue_emitGroup t (groupCalc group)).2.2.2.1]; rfl
    · rw [(kindValue_emitGroup t (groupCalc group)).2.2.2.2.1]; rfl
    · rw [(kindValue_emitGroup t (groupCalc group)).2.2.2.2.2]; rfl
  · norm_num +decide [aggregate_battery_metrics, tsKeys, aggregateGroup, groupCalc,
      emitGroup, mkOut, sum_or_none, avg_or_none, percent, fallback, mergedStatus,
      distinctStatuses, combinedSource, sortStrings, insertStr, dedupAdj, kindValues,
      kindValue, twoBatteryMetrics, batteryMetric, List.filter, List.insertionSort,
      List.orderedInsert, List.dedup, List.find?]

theorem C3_merged_energy_sums_witness :
    kindValue (aggregate_battery_metrics twoBatteryMetrics) .BatteryEnergyNow =
      sum_or_none (kindValues twoBatteryMetrics .BatteryEnergyNow) :=
  (C3_merged_energy_sums.1 1 twoBatteryMetrics (by decide)
    (by decide)).1

/-- C4: for every non-empty same-timestamp group, the merged percentage
equals (Σ energy_now / Σ energy_full) × 100 when both merged sums are
present and the denominator is nonzero; otherwise it falls back to the
arithmetic mean of the raw percentage values present, and is absent when
none is present either. -/
theorem C4_merged_percentage_rule :
    ∀ (t : ℚ) (group : List MetricSample), group ≠ [] → (∀ m ∈ group, m.ts = t) →
      kindValue (aggregate_battery_metrics group) .BatteryPercentage =
        fallback
          (percent (sum_or_none (kindValues group .BatteryEnergyNow))
            (sum_or_none (kindValues group .BatteryEnergyFull)))
          (avg_or_none (kindValues group .BatteryPercentage)) ∧
      (∀ n f, sum_or_none (kindValues group .BatteryEnergyNow) = some n →
        sum_or_none (kindValues group .BatteryEnergyFull) = some f → f ≠ 0 →
        kindValue (aggregate_battery_metrics group) .BatteryPercentage =
          some (n / f * 100)) ∧
      (percent (sum_or_none (kindValues group .BatteryEnergyNow))
          (sum_or_none (kindValues group .BatteryEnergyFull)) = none →
        kindValue (aggregate_battery_metrics group) .BatteryPercentage =
          avg_or_none (kindValues group .BatteryPercentage)) := by
  intro t group hne hts
  have hmain : kindValue (aggregate_battery_metrics group) .BatteryPercentage =
      fallback
        (percent (sum_or_none (kindValues group .BatteryEnergyNow))
          (sum_or_none (kindValues group .BatteryEnergyFull)))
        (avg_or_none (kindValues group .BatteryPercentage)) := by
    rw [aggregate_single_group t group hne hts]
    unfold aggregateGroup
    rw [(kindValue_emitGroup t (groupCalc group)).1]
    rfl
  refine ⟨hmain, ?_, ?_⟩
  · intro n f hn hf hfne
    rw [hmain, hn, hf]
    simp [percent, fallback, hfne]
  · intro hnone
    rw [hmain, hnone]
    rfl

theorem C4_merged_percentage_rule_witness :
    kindValue (aggregate_battery_metrics twoBatteryMetrics) .BatteryPercentage =
      fallback
        (percent (sum_or_none (kindValues twoBatteryMetrics .BatteryEnergyNow))
          (sum_or_none (kindValues twoBatteryMetrics .BatteryEnergyFull)))
        (avg_or_none (kindValues twoBatteryMetrics .BatteryPercentage)) :=
  (C4_merged_percentage_rule 1 twoBatteryMetrics (by decide) (by decide)).1

/-- C5 fails as stated on a group whose single stored status is the
literal string "mixed": the merged status is "mixed" although the
distinct status set has size 1, refuting the "exactly when" clause. -/
theorem C5_counterexample_literal_mixed :
    mergedStatus literalMixedMetric = some "mixed" ∧
    (distinctStatuses literalMixedMetric).length = 1 ∧
    ¬(mergedStatus literalMixedMetric = some "mixed" ↔
      1 < (distinctStatuses literalMixedMetric).length) := by
  decide

/-- C5 (amended): every merged output sample carries the merged status;
the merged status is absent when no sample has a status, equals the
single value when exactly one distinct status is present, and equals the
sentinel "mixed" whenever the distinct status set has size > 1 — and
conversely a "mixed" result implies size > 1 provided no stored status
is itself the literal "mixed". -/
theorem C5_merged_status_amended :
    ∀ (t : ℚ) (group : List MetricSample), group ≠ [] → (∀ m ∈ group, m.ts = t) →
      (∀ m ∈ aggregate_battery_metrics group, m.status = mergedStatus group) ∧
      ((∀ m ∈ group, m.status = none) → mergedStatus group = none) ∧
      (∀ s, distinctStatuses group = [s] → mergedStatus group = some s) ∧
      (1 < (distinctStatuses group).length → mergedStatus group = some "mixed") ∧
      ("mixed" ∉ distinctStatuses group → mergedStatus group = some "mixed" →
        1 < (distinctStatuses group).length) := by
  intro t group hne hts
  refine ⟨?_, ?_, ?_, ?_, ?_⟩
  · intro m hm
    rw [aggregate_single_group t group hne hts] at hm
    have hmem := mem_emitGroup (show m ∈ emitGroup t (groupCalc group) from hm)
    rw [hmem.2.2]
    rfl
  · intro hnone
    have hd : distinctStatuses group = [] := by
      unfold distinctStatuses
      rw [List.filterMap_eq_nil_iff.mpr (fun m hm => by simp [hnone m hm])]
      rfl
    simp [mergedStatus, hd]
  · intro s hs
    simp [mergedStatus, hs]
  · intro hlen
    rcases hd : distinctStatuses group with _ | ⟨a, _ | ⟨b, rest⟩⟩
    · rw [hd] at hlen; simp at hlen
    · rw [hd] at hlen; simp at hlen
    · simp [mergedStatus, hd]
  · intro hmem hmix
    rcases hd : distinctStatuses group with _ | ⟨a, _ | ⟨b, rest⟩⟩
    · simp [mergedStatus, hd] at hmix
    · simp only [mergedStatus, hd] at hmix
      rw [Option.some_inj] at hmix
      refine absurd ?_ hmem
      rw [hd, ← hmix]
      simp
    · simp

theorem C5_merged_status_amended_witness :
    1 < (distinctStatuses twoBatteryMetrics).length ∧
    mergedStatus twoBatteryMetrics = some "mixed" :=
  ⟨by decide,
   (C5_merged_status_amended 1 twoBatteryMetrics (by decide)
     (by decide)).2.2.2.1 (by decide)⟩

/-- C1: the rate estimator considers only samples with a present
`energy_now_wh`, in order; a consecutive pair is skipped (advancing
`previous` to `current`, leaving both accumulators unchanged) when the
pair is out of order, its `dt_hours` is ≤ 0 or its `dt_hours` exceeds
5 minutes; on the spec's 0 s / 300 s / 1800 s example the 1500 s
transition is excluded and the discharge rate is exactly 6 W. -/
theorem C1_rate_estimator_gap_handling :
    (∀ samples : List Sample,
      average_rates samples =
        average_rates (samples.filter (fun s => s.energy_now_wh.isSome))) ∧
    (∀ (previous current : Sample) (rest : List Sample) (d c : RateAccumulator),
      current.ts < previous.ts ∨ (current.ts - previous.ts) / 3600 ≤ 0 ∨
        MAX_GAP_HOURS < (current.ts - previous.ts) / 3600 →
      ratesLoop previous (current :: rest) d c = ratesLoop current rest d c) ∧
    (average_rates gapSamples).discharge_w = some 6 := by
  refine ⟨?_, ?_, ?_⟩
  · intro samples
    simp only [average_rates, List.filter_filter, Bool.and_self]
  · intro previous current rest d c h
    by_cases hlt : current.ts < previous.ts
    · simp only [ratesLoop, if_pos hlt]
    · have hskip : ¬(0 < (current.ts - previous.ts) / 3600 ∧
          (current.ts - previous.ts) / 3600 ≤ MAX_GAP_HOURS) := by
        rcases h with h | h | h
        · exact absurd h hlt
        · exact fun hh => absurd h (not_le.mpr hh.1)
        · exact fun hh => absurd hh.2 (not_le.mpr h)
      simp only [ratesLoop, if_neg hlt, if_neg hskip]
  · norm_num [average_rates, ratesLoop, RateAccumulator.average, RateAccumulator.record,
      MAX_GAP_HOURS, is_charging, is_discharging, gapSamples, sampleAt, List.filter]

theorem C1_rate_estimator_gap_handling_witness :
    average_rates ([] : List Sample) =
      average_rates (([] : List Sample).filter (fun s => s.energy_now_wh.isSome)) ∧
    ratesLoop (sampleAt 300 60) [sampleAt 0 60] ⟨0, 0⟩ ⟨0, 0⟩ =
      ratesLoop (sampleAt 0 60) [] ⟨0, 0⟩ ⟨0, 0⟩ :=
  ⟨C1_rate_estimator_gap_handling.1 [],
   C1_rate_estimator_gap_handling.2.1 (sampleAt 300 60) (sampleAt 0 60) [] ⟨0, 0⟩ ⟨0, 0⟩
     (Or.inl (by norm_num [sampleAt]))⟩

/-- C2: within the admissible window, a pair contributes to the discharge
accumulator exactly when the energy delta is negative and both endpoints
are classified discharging (absent status defaults to discharging), and
to the charge accumulator exactly when the delta is positive and both
endpoints have a status case-insensitively equal to "charging" (absent
status is never charging). -/
theorem C2_contribution_classification :
    (∀ s : Sample, s.status = none → is_discharging s = true ∧ is_charging s = false) ∧
    (∀ (s : Sample) (st : String), s.status = some st →
      is_discharging s = eqIgnoreAsciiCase st "discharging" ∧
      is_charging s = eqIgnoreAsciiCase st "charging") ∧
    (∀ (previous current : Sample) (rest : List Sample) (d c : RateAccumulator),
      ¬ current.ts < previous.ts →
      0 < (current.ts - previous.ts) / 3600 →
      (current.ts - previous.ts) / 3600 ≤ MAX_GAP_HOURS →
      (current.energy_now_wh.getD 0 - previous.energy_now_wh.getD 0 < 0 ∧
          is_discharging previous ∧ is_discharging current →
        ratesLoop previous (current :: rest) d c =
          ratesLoop current rest
            (d.record (-(current.energy_now_wh.getD 0 - previous.energy_now_wh.getD 0))
              ((current.ts - previous.ts) / 3600)) c) ∧
      (0 < current.energy_now_wh.getD 0 - previous.energy_now_wh.getD 0 ∧
          is_charging previous ∧ is_charging current →
        ratesLoop previous (current :: rest) d c =
          ratesLoop current rest d
            (c.record (current.energy_now_wh.getD 0 - previous.energy_now_wh.getD 0)
              ((current.ts - previous.ts) / 3600))) ∧
      (¬(current.energy_now_wh.getD 0 - previous.energy_now_wh.getD 0 < 0 ∧
          is_discharging previous ∧ is_discharging current) →
        ¬(0 < current.energy_now_wh.getD 0 - previous.energy_now_wh.getD 0 ∧
          is_charging previous ∧ is_charging current) →
        ratesLoop previous (current :: rest) d c = ratesLoop current rest d c)) := by
  refine ⟨?_, ?_, ?_⟩
  · intro s h; simp [is_discharging, is_charging, h]
  · intro s st h; simp [is_discharging, is_charging, h]
  · intro previous current rest d c hlt hpos hle
    refine ⟨fun hdis => ?_, fun hchg => ?_, fun hdis hchg => ?_⟩
    · simp only [ratesLoop, if_neg hlt, if_pos (And.intro hpos hle)]
      rw [if_neg (fun hchg : 0 < _ ∧ _ => (lt_asymm hdis.1) hchg.1), if_pos hdis]
    · simp only [ratesLoop, if_neg hlt, if_pos (And.intro hpos hle)]
      rw [if_pos hchg]
    · simp only [ratesLoop, if_neg hlt, if_pos (And.intro hpos hle)]
      rw [if_neg hchg, if_neg hdis]

theorem C2_contribution_classification_witness :
    (is_discharging (sampleAt 0 60) = true ∧ is_charging (sampleAt 0 60) = false) ∧
    (is_discharging
        { sampleAt 0 60 with status := some "Charging" } =
          eqIgnoreAsciiCase "Charging" "discharging" ∧
      is_charging
        { sampleAt 0 60 with status := some "Charging" } =
          eqIgnoreAsciiCase "Charging" "charging") ∧
    ratesLoop (sampleAt 0 60) [sampleAt 300 (119 / 2)] ⟨0, 0⟩ ⟨0, 0⟩ =
      ratesLoop (sampleAt 300 (119 / 2)) []
        (RateAccumulator.record ⟨0, 0⟩
          (-((sampleAt 300 (119 / 2)).energy_now_wh.getD 0 -
            (sampleAt 0 60).energy_now_wh.getD 0))
          (((sampleAt 300 (119 / 2)).ts - (sampleAt 0 60).ts) / 3600)) ⟨0, 0⟩ :=
  ⟨C2_contribution_classification.1 (sampleAt 0 60) rfl,
   C2_contribution_classification.2.1 { sampleAt 0 60 with status := some "Charging" }
     "Charging" rfl,
   (C2_contribution_classification.2.2 (sampleAt 0 60) (sampleAt 300 (119 / 2)) []
       ⟨0, 0⟩ ⟨0, 0⟩ (by norm_num [sampleAt]) (by norm_num [sampleAt])
       (by norm_num [sampleAt, MAX_GAP_HOURS])).1
     (by norm_num [sampleAt, is_discharging])⟩

theorem C8_runtime_none_iff_witness :
    estimate_runtime_hours (some 6) (sampleAt 1800 (297 / 5)) = some (60 / 6) :=
  (C8_runtime_none_iff (some 6) (sampleAt 1800 (297 / 5))).2.2.2 6 60 rfl
    (by norm_num) rfl (by norm_num)

theorem filter_mkOut_toList (o : Option ℚ) (t : ℚ) (src unit : String)
    (st : Option String) (k target : MetricKind) :
    ((o.map (mkOut t k src unit st)).toList).filter (fun m => decide (m.kind = target)) =
      if k = target then (o.map (mkOut t k src unit st)).toList else [] := by
  cases o with
  | none => simp
  | some v => by_cases h : k = target <;> simp [mkOut, h, List.filter]

theorem sum_or_none_map_value (o : Option ℚ) (t : ℚ) (k : MetricKind)
    (src unit : String) (st : Option String) :
    sum_or_none (((o.map (mkOut t k src unit st)).toList).map (fun m => m.value)) = o := by
  cases o with
  | none => rfl
  | some v => simp [sum_or_none, mkOut]

theorem avg_or_none_map_value (o : Option ℚ) (t : ℚ) (k : MetricKind)
    (src unit : String) (st : Option String) :
    avg_or_none (((o.map (mkOut t k src unit st)).toList).map (fun m => m.value)) = o := by
  cases o with
  | none => rfl
  | some v => simp [avg_or_none, mkOut]

theorem kindValues_emitGroup (t : ℚ) (c : GroupCalc) :
    sum_or_none (kindValues (emitGroup t c) .BatteryEnergyNow) = c.sumNow ∧
    sum_or_none (kindValues (emitGroup t c) .BatteryEnergyFull) = c.sumFull ∧
    sum_or_none (kindValues (emitGroup t c) .BatteryEnergyFullDesign) = c.sumDesign ∧
    avg_or_none (kindValues (emitGroup t c) .BatteryPercentage) = c.pct ∧
    avg_or_none (kindValues (emitGroup t c) .BatteryCapacity) = c.cap ∧
    avg_or_none (kindValues (emitGroup t c) .BatteryHealth) = c.health := by
  refine ⟨?_, ?_, ?_, ?_, ?_, ?_⟩ <;>
    simp only [kindValues, emitGroup, List.filter_append, filter_mkOut_toList] <;>
    simp [sum_or_none_map_value, avg_or_none_map_value]

theorem filterMap_status_const (s : String) :
    ∀ (g : List MetricSample), (∀ m ∈ g, m.status = some s) →
      g.filterMap (fun m => m.status) = List.replicate g.length s
  | [], _ => rfl
  | m :: rest, hall => by
    simp [List.filterMap_cons, hall m (by simp),
      filterMap_status_const s rest (fun x hx => hall x (by simp [hx])),
      List.replicate_succ]

theorem mergedStatus_const (g : List MetricSample) (st : Option String)
    (hne : g ≠ []) (hall : ∀ m ∈ g, m.status = st) : mergedStatus g = st := by
  cases st with
  | none =>
    have hd : distinctStatuses g = [] := by
      unfold distinctStatuses
      rw [List.filterMap_eq_nil_iff.mpr (fun m hm => by simp [hall m hm])]
      rfl
    simp [mergedStatus, hd]
  | some s =>
    have hlen : g.length ≠ 0 := fun h => hne (List.length_eq_zero.mp h)
    have hd : distinctStatuses g = [s] := by
      unfold distinctStatuses
      rw [filterMap_status_const s g hall]
      refine dedup_all_eq s _ (fun h => hlen (by simpa using congrArg List.length h)) ?_
      exact fun x hx => (List.mem_replicate.mp hx).2
    simp [mergedStatus, hd]

theorem insertStr_self (s : String) :
    ∀ (n : Nat), insertStr s (List.replicate n s) = List.replicate (n + 1) s
  | 0 => rfl
  | n + 1 => by
    rw [List.replicate_succ]
    show (if s < s then s :: s :: List.replicate n s else s :: insertStr s (List.replicate n s)) = _
    rw [if_neg (lt_irrefl s), insertStr_self s n]
    rfl

theorem sortStrings_replicate (s : String) :
    ∀ (n : Nat), sortStrings (List.replicate n s) = List.replicate n s
  | 0 => rfl
  | n + 1 => by
    rw [List.replicate_succ]
    show insertStr s (sortStrings (List.replicate n s)) = _
    rw [sortStrings_replicate s n, insertStr_self s n, List.replicate_succ]

theorem dedupAdj_replicate (s : String) :
    ∀ (n : Nat), dedupAdj (List.replicate (n + 1) s) = [s]
  | 0 => rfl
  | n + 1 => by
    rw [List.replicate_succ, List.replicate_succ]
    show dedupAdj (s :: s :: List.replicate n s) = [s]
    rw [show dedupAdj (s :: s :: List.replicate n s) =
      dedupAdj (s :: List.replicate n s) from by simp [dedupAdj]]
    rw [← List.replicate_succ]
    exact dedupAdj_replicate s n

theorem combinedSource_const (g : List MetricSample) (src : String)
    (hne : g ≠ []) (hall : ∀ m ∈ g, m.source = src) : combinedSource g = src := by
  unfold combinedSource
  have hmap : g.map (fun m => m.source) = List.replicate g.length src := by
    rw [List.map_congr_left hall]
    exact List.map_const g src
  obtain ⟨n, hn⟩ : ∃ n, g.length = n + 1 := by
    cases g with
    | nil => exact absurd rfl hne
    | cons a rest => exact ⟨rest.length, rfl⟩
  rw [hmap, hn, sortStrings_replicate, dedupAdj_replicate]
  simp [String.intercalate]
  rfl

theorem fallback_fallback (a b : Option ℚ) : fallback a (fallback a b) = fallback a b := by
  cases a <;> rfl

theorem groupCalc_fix (g : List MetricSample) :
    fallback (percent (groupCalc g).sumNow (groupCalc g).sumFull) (groupCalc g).pct =
      (groupCalc g).pct ∧
    fallback (percent (groupCalc g).sumFull (groupCalc g).sumDesign) (groupCalc g).health =
      (groupCalc g).health :=
  ⟨fallback_fallback _ _, fallback_fallback _ _⟩

theorem groupCalc_emitGroup (t : ℚ) (c : GroupCalc) (hne : emitGroup t c ≠ []) :
    groupCalc (emitGroup t c) =
      { sumNow := c.sumNow, sumFull := c.sumFull, sumDesign := c.sumDesign,
        pct := fallback (percent c.sumNow c.sumFull) c.pct, cap := c.cap,
        health := fallback (percent c.sumFull c.sumDesign) c.health,
        status := c.status, src := c.src } := by
  have hk := kindValues_emitGroup t c
  unfold groupCalc
  rw [hk.1, hk.2.1, hk.2.2.1, hk.2.2.2.1, hk.2.2.2.2.1, hk.2.2.2.2.2,
    mergedStatus_const _ _ hne (fun m hm => (mem_emitGroup hm).2.2),
    combinedSource_const _ _ hne (fun m hm => (mem_emitGroup hm).2.1)]

theorem aggregateGroup_idem (t : ℚ) (g : List MetricSample)
    (hne : aggregateGroup t g ≠ []) :
    aggregateGroup t (aggregateGroup t g) = aggregateGroup t g := by
  unfold aggregateGroup
  rw [groupCalc_emitGroup t (groupCalc g) hne]
  rw [(groupCalc_fix g).1, (groupCalc_fix g).2]

theorem aggregateGroup_ts {m : MetricSample} {k : ℚ} {g : List MetricSample}
    (h : m ∈ aggregateGroup k g) : m.ts = k :=
  (mem_emitGroup h).1

theorem mem_aggregate {m : MetricSample} {l : List MetricSample} :
    m ∈ aggregate_battery_metrics l ↔
      ∃ k ∈ tsKeys l, m ∈ aggregateGroup k (l.filter (fun x => decide (x.ts = k))) := by
  simp [aggregate_battery_metrics, List.mem_flatten]

theorem filter_flatten_groups (k : ℚ) (F : ℚ → List MetricSample)
    (hF : ∀ k' m, m ∈ F k' → m.ts = k') :
    ∀ (keys : List ℚ), keys.Nodup →
      ((keys.map F).flatten).filter (fun m => decide (m.ts = k)) =
        if k ∈ keys then F k else []
  | [], _ => by simp
  | k₀ :: rest, hnd => by
    rw [List.map_cons, List.flatten_cons, List.filter_append,
      filter_flatten_groups k F hF rest hnd.of_cons]
    by_cases hk : k₀ = k
    · subst hk
      rw [List.filter_eq_self.mpr (fun m hm => by simp [hF k₀ m hm])]
      have hknotin : k₀ ∉ rest := (List.nodup_cons.mp hnd).1
      rw [if_neg hknotin, if_pos (List.mem_cons_self k₀ rest)]
      simp
    · rw [List.filter_eq_nil_iff.mpr (fun m hm => by simp [hF k₀ m hm, hk])]
      by_cases hm : k ∈ rest
      · simp [hm, List.mem_cons]
      · simp [hm, List.mem_cons, Ne.symm hk]

theorem tsKeys_nodup (l : List MetricSample) : (tsKeys l).Nodup := by
  unfold tsKeys
  exact ((List.perm_insertionSort _ _).symm).nodup (List.nodup_dedup _)

theorem tsKeys_sorted (l : List MetricSample) : (tsKeys l).Sorted (· ≤ ·) :=
  List.sorted_insertionSort _ _

theorem filter_aggregate (l : List MetricSample) (k : ℚ) (hk : k ∈ tsKeys l) :
    (aggregate_battery_metrics l).filter (fun m => decide (m.ts = k)) =
      aggregateGroup k (l.filter (fun m => decide (m.ts = k))) := by
  unfold aggregate_battery_metrics
  rw [filter_flatten_groups k _ (fun k' m hm => aggregateGroup_ts hm)
    (tsKeys l) (tsKeys_nodup l), if_pos hk]

theorem tsKeys_aggregate (l : List MetricSample) :
    tsKeys (aggregate_battery_metrics l) =
      (tsKeys l).filter
        (fun k => !(aggregateGroup k (l.filter (fun m => decide (m.ts = k)))).isEmpty) := by
  have h1 : (tsKeys (aggregate_battery_metrics l)).Nodup := tsKeys_nodup _
  have h2 : ((tsKeys l).filter
      (fun k => !(aggregateGroup k (l.filter (fun m => decide (m.ts = k)))).isEmpty)).Nodup :=
    (tsKeys_nodup l).filter _
  have hmem : ∀ a, a ∈ tsKeys (aggregate_battery_metrics l) ↔
      a ∈ (tsKeys l).filter
        (fun k => !(aggregateGroup k (l.filter (fun m => decide (m.ts = k)))).isEmpty) := by
    intro a
    constructor
    · intro ha
      have hmapmem : a ∈ (aggregate_battery_metrics l).map (fun m => m.ts) := by
        have := (List.perm_insertionSort (fun x y => x ≤ y) _).mem_iff.mp ha
        exact List.mem_dedup.mp this
      obtain ⟨m, hm, hts⟩ := List.mem_map.mp hmapmem
      obtain ⟨k, hk, hmG⟩ := mem_aggregate.mp hm
      have hmk : m.ts = k := aggregateGroup_ts hmG
      have hak : k = a := by rw [← hmk, hts]
      subst hak
      rw [List.mem_filter]
      refine ⟨hk, ?_⟩
      simp only [Bool.not_eq_true']
      rw [← Bool.not_eq_true, List.isEmpty_iff]
      exact List.ne_nil_of_mem hmG
    · intro ha
      rw [List.mem_filter] at ha
      obtain ⟨hk, hne⟩ := ha
      have hGne : aggregateGroup a (l.filter (fun m => decide (m.ts = a))) ≠ [] := by
        intro h
        rw [h] at hne
        simp at hne
      obtain ⟨m, hm⟩ := List.exists_mem_of_ne_nil _ hGne
      have hts : m.ts = a := aggregateGroup_ts hm
      have hmA : m ∈ aggregate_battery_metrics l := mem_aggregate.mpr ⟨a, hk, hm⟩
      unfold tsKeys
      rw [(List.perm_insertionSort (fun x y => x ≤ y) _).mem_iff, List.mem_dedup]
      exact List.mem_map.mpr ⟨m, hmA, hts⟩
  exact List.eq_of_perm_of_sorted ((List.perm_ext_iff_of_nodup h1 h2).mpr hmem)
    (tsKeys_sorted _) (List.Pairwise.filter _ (tsKeys_sorted l))

theorem flatten_map_filter_nonempty (F : ℚ → List MetricSample) :
    ∀ (keys : List ℚ),
      (((keys.filter (fun k => !(F k).isEmpty)).map F).flatten) = ((keys.map F).flatten)
  | [] => rfl
  | k :: rest => by
    by_cases h : (F k).isEmpty
    · have hFk : F k = [] := List.isEmpty_iff.mp h
      simp [List.filter_cons, h, hFk, flatten_map_filter_nonempty F rest]
    · simp [List.filter_cons, h, flatten_map_filter_nonempty F rest]

/-- C9 fails as stated for a general per-(timestamp, kind)-unique input:
when a raw percentage metric coexists with energy metrics it disagrees
with, the merge recomputes the percentage from the energy sums (here
10/40 → 25) instead of reproducing the stored raw value (30). -/
theorem C9_counterexample_inconsistent_pct :
    uniquePerTsKind inconsistentPctMetrics = true ∧
    kindValue inconsistentPctMetrics .BatteryPercentage = some 30 ∧
    kindValue (aggregate_battery_metrics inconsistentPctMetrics) .BatteryPercentage =
      some 25 ∧
    kindValue (aggregate_battery_metrics inconsistentPctMetrics) .BatteryPercentage ≠
      kindValue inconsistentPctMetrics .BatteryPercentage := by
  have h30 : kindValue inconsistentPctMetrics .BatteryPercentage = some 30 := by decide
  have h25 : kindValue (aggregate_battery_metrics inconsistentPctMetrics)
      .BatteryPercentage = some 25 := by
    norm_num +decide [aggregate_battery_metrics, tsKeys, aggregateGroup, groupCalc,
      emitGroup, mkOut, sum_or_none, avg_or_none, percent, fallback, mergedStatus,
      distinctStatuses, combinedSource, sortStrings, insertStr, dedupAdj, kindValues,
      kindValue, inconsistentPctMetrics, batteryMetric, List.filter,
      List.insertionSort, List.orderedInsert, List.dedup, List.find?]
  refine ⟨by decide, h30, h25, ?_⟩
  rw [h25, h30]
  simp

/-- C9 (amended): the merge is idempotent on its own output — re-applying
`aggregate_battery_metrics` to the merged sequence reproduces it exactly,
field values and source labels included.  (A general per-(timestamp,
kind)-unique sequence is not a fixed point, since ratio-derived fields are
recomputed from the energy sums.) -/
theorem C9_aggregate_idempotent :
    ∀ l : List MetricSample,
      aggregate_battery_metrics (aggregate_battery_metrics l) =
        aggregate_battery_metrics l := by
  intro l
  have step : ∀ k ∈ (tsKeys l).filter
      (fun k => !(aggregateGroup k (l.filter (fun m => decide (m.ts = k)))).isEmpty),
      aggregateGroup k ((aggregate_battery_metrics l).filter
          (fun m => decide (m.ts = k))) =
        aggregateGroup k (l.filter (fun m => decide (m.ts = k))) := by
    intro k hk
    rw [List.mem_filter] at hk
    rw [filter_aggregate l k hk.1]
    refine aggregateGroup_idem k _ ?_
    intro h
    rw [h] at hk
    simp at hk
  show ((tsKeys (aggregate_battery_metrics l)).map
      (fun k => aggregateGroup k ((aggregate_battery_metrics l).filter
        (fun m => decide (m.ts = k))))).flatten = aggregate_battery_metrics l
  rw [tsKeys_aggregate l, List.map_congr_left step, flatten_map_filter_nonempty]
  rfl

end Symmetri
